import Mathlib

/-!
Verification of the `many-migration` crate of the many-rs repository
(src/many-migration/src/lib.rs): a shallow embedding of the migration
framework (Metadata, InnerMigration, Migration, MigrationConfig and
MigrationSet) together with theorems about activation, per-height
updates, hotfix gating and the load algorithm.

Modelling conventions:
- `u64` block heights become `Nat` (the code only compares heights, so
  no wraparound is observable);
- `serde_json::Value` becomes a small JSON-like inductive type; the
  code only passes these values through to the hooks verbatim;
- storage mutation (`&mut T`) becomes explicit state passing: a hook
  `fn(&mut T, &HashMap<String, Value>) -> Result<(), E>` becomes
  `T → Extra → Except E T`;
- `BTreeMap<String, _>` becomes a key-sorted association list with an
  insert that overwrites an equal key in place, mirroring
  `BTreeMap::insert` as used by `collect`;
- methods taking `&mut self` return the updated value alongside the
  `Result`; when a hook fails, mutations already applied to `self`
  (such as setting `active`) are kept, exactly as in the Rust code.
-/

namespace ManyMigration

/-- Shallow model of a `serde_json::Value`; the framework never inspects
these values, it hands them to the hooks verbatim. -/
inductive Value where
  | null : Value
  | bool (b : Bool) : Value
  | num (n : Int) : Value
  | str (s : String) : Value
deriving DecidableEq

/-- Model of `HashMap<String, Value>` (the `extra` map); the framework
only passes it through, so an association list suffices. -/
abbrev Extra := List (String × Value)

/-- Model of a `&[u8]` byte sequence. -/
abbrev Bytes := List Nat

/-- Mirrors `struct Metadata` of `many-migration`. -/
structure Metadata where
  block_height : Nat
  disabled : Bool
  issue : Option String
  extra : Extra
deriving DecidableEq

/-- Mirrors `FnPtr<T, E> = fn(&mut T, &HashMap<String, Value>) -> Result<(), E>`,
with the storage mutation made explicit. -/
abbrev FnPtr (T E : Type) := T → Extra → Except E T

/-- Mirrors `FnByte = fn(&[u8]) -> Option<Vec<u8>>`. -/
abbrev FnByte := Bytes → Option Bytes

/-- Mirrors `struct RegularMigration<T, E>`. -/
structure RegularMigration (T E : Type) where
  initialize_fn : FnPtr T E
  update_fn : FnPtr T E

/-- Mirrors `struct HotfixMigration`. -/
structure HotfixMigration where
  hotfix_fn : FnByte

/-- Mirrors `enum MigrationType<T, E>`, including the non-exhaustive
placeholder variant `_Unreachable` (spelled `Unreachable` here). -/
inductive MigrationType (T E : Type) where
  | Regular (m : RegularMigration T E) : MigrationType T E
  | Hotfix (m : HotfixMigration) : MigrationType T E
  | Unreachable : MigrationType T E

/-- Mirrors `struct InnerMigration<T, E>`. -/
structure InnerMigration (T E : Type) where
  type : MigrationType T E
  name : String
  description : String

variable {T E : Type}

/-- Mirrors `InnerMigration::new_hotfix`. -/
def InnerMigration.new_hotfix (hotfix_fn : FnByte) (name description : String) :
    InnerMigration T E :=
  { type := .Hotfix { hotfix_fn }, name, description }

/-- Mirrors `InnerMigration::new_initialize_update`. -/
def InnerMigration.new_initialize_update (initialize_fn update_fn : FnPtr T E)
    (name description : String) : InnerMigration T E :=
  { type := .Regular { initialize_fn, update_fn }, name, description }

/-- Mirrors `InnerMigration::initialize`: runs the regular initialize hook,
and is a no-op (Ok) for the other kinds. -/
def InnerMigration.initialize (m : InnerMigration T E) (storage : T) (extra : Extra) :
    Except E T :=
  match m.type with
  | .Regular migration => migration.initialize_fn storage extra
  | .Hotfix _ => .ok storage
  | .Unreachable => .ok storage

/-- Mirrors `InnerMigration::update`: runs the regular update hook, and is
a no-op (Ok) for the other kinds. -/
def InnerMigration.update (m : InnerMigration T E) (storage : T) (extra : Extra) :
    Except E T :=
  match m.type with
  | .Regular migration => migration.update_fn storage extra
  | .Hotfix _ => .ok storage
  | .Unreachable => .ok storage

/-- Mirrors `InnerMigration::hotfix`: runs the hotfix transform, `none`
for the other kinds. -/
def InnerMigration.hotfix (m : InnerMigration T E) (b : Bytes) : Option Bytes :=
  match m.type with
  | .Regular _ => none
  | .Hotfix migration => migration.hotfix_fn b
  | .Unreachable => none

/-- Mirrors `struct Migration<'a, T, E>`. -/
structure Migration (T E : Type) where
  migration : InnerMigration T E
  metadata : Metadata
  enabled : Bool
  active : Bool

/-- Mirrors `Migration::new`: `enabled = !metadata.disabled`, `active = false`. -/
def Migration.new (migration : InnerMigration T E) (metadata : Metadata) : Migration T E :=
  { migration, metadata, enabled := !metadata.disabled, active := false }

/-- Mirrors `Migration::is_enabled`. -/
def Migration.is_enabled (m : Migration T E) : Bool := m.enabled

/-- Mirrors `Migration::is_active`. -/
def Migration.is_active (m : Migration T E) : Bool := m.active

/-- Mirrors `Migration::is_regular`. -/
def Migration.is_regular (m : Migration T E) : Bool :=
  match m.migration.type with
  | .Regular _ => true
  | _ => false

/-- Mirrors `Migration::is_hotfix`. -/
def Migration.is_hotfix (m : Migration T E) : Bool :=
  match m.migration.type with
  | .Hotfix _ => true
  | _ => false

/-- Mirrors `Migration::name`. -/
def Migration.name (m : Migration T E) : String := m.migration.name

/-- Mirrors `Migration::maybe_initialize_update_at_height`. The returned
pair is (the migration after the call, the Result together with the
storage as mutated by the hook). Note that `active` is set before the
initialize hook runs, so it stays set even when the hook fails. -/
def Migration.maybe_initialize_update_at_height (m : Migration T E) (storage : T)
    (block_height : Nat) : Migration T E × Except E T :=
  if m.is_enabled = true then
    if block_height = m.metadata.block_height ∧ m.active = false then
      ({ m with active := true }, m.migration.initialize storage m.metadata.extra)
    else if m.metadata.block_height < block_height then
      (m, m.migration.update storage m.metadata.extra)
    else
      (m, .ok storage)
  else
    (m, .ok storage)

/-- Mirrors `Migration::hotfix`: the transform runs only when the
migration is enabled and the height equals the activation height. -/
def Migration.hotfix (m : Migration T E) (b : Bytes) (block_height : Nat) : Option Bytes :=
  if m.is_enabled = true ∧ m.metadata.block_height = block_height then
    m.migration.hotfix b
  else
    none

/-- Mirrors `struct SingleMigrationConfig`. -/
structure SingleMigrationConfig where
  name : String
  metadata : Metadata
deriving DecidableEq

/-- Mirrors `struct MigrationConfig`. -/
structure MigrationConfig where
  strict : Option Bool
  migrations : List SingleMigrationConfig
deriving DecidableEq

/-- Mirrors `MigrationConfig::is_strict`. -/
def MigrationConfig.is_strict (c : MigrationConfig) : Bool := c.strict.getD false

/-- String-keyed map as a key-sorted association list, modelling
`BTreeMap<String, _>`. `minsert` inserts keeping the sort order and,
like `BTreeMap::insert`, replaces the value of an equal key. Keys are
ordered by the lexicographic order on their character data, which is
the order of `String::cmp`. -/
def minsert {α : Type} (k : String) (v : α) : List (String × α) → List (String × α)
  | [] => [(k, v)]
  | (k₂, v₂) :: rest =>
    if k.data < k₂.data then (k, v) :: (k₂, v₂) :: rest
    else if k = k₂ then (k, v) :: rest
    else (k₂, v₂) :: minsert k v rest

/-- Lookup by key, modelling `BTreeMap::get`. -/
def mlookup {α : Type} : List (String × α) → String → Option α
  | [], _ => none
  | (k₂, v) :: rest, k => if k = k₂ then some v else mlookup rest k

/-- Membership test, modelling `BTreeMap::contains_key`. -/
def mcontains {α : Type} (l : List (String × α)) (k : String) : Bool :=
  (mlookup l k).isSome

/-- ASCII single quote, used by the load error message. -/
def squote : String := String.singleton (Char.ofNat 39)

/-- ASCII double quote, used by the strict-mode error messages. -/
def dquote : String := String.singleton (Char.ofNat 34)

/-- Mirrors the error built at `MigrationSet::load` when a configuration
name does not resolve against the registry. -/
def unsupportedMigrationMsg (name : String) : String :=
  "Unsupported migration " ++ squote ++ name ++ squote

/-- Mirrors the singular strict-mode error of `MigrationSet::load`. -/
def missingSingularMsg (name : String) : String :=
  "Migration Config is missing migration " ++ dquote ++ name ++ dquote

/-- Mirrors the plural strict-mode error of `MigrationSet::load`; the
`{more:?}` debug formatting of the vector of names. -/
def missingPluralMsg (names : List String) : String :=
  "Migration Config is missing migrations [" ++
    String.intercalate ", " (names.map (fun n => dquote ++ n ++ dquote)) ++ "]"

/-- Mirrors the `match maybe_missing.as_slice()` step of `MigrationSet::load`. -/
def missingMessage : List String → Except String Unit
  | [] => .ok ()
  | [name] => .error (missingSingularMsg name)
  | more => .error (missingPluralMsg more)

/-- Mirrors the registry `BTreeMap` built at the start of `MigrationSet::load`
by collecting `(m.name, m)` pairs. -/
def buildRegistry (registry : List (InnerMigration T E)) : List (String × InnerMigration T E) :=
  registry.foldl (fun acc m => minsert m.name m acc) []

/-- Mirrors the `collect::<Result<BTreeMap<_, _>, String>>()` step of
`MigrationSet::load`: resolve each configuration entry in order against
the registry map, short-circuiting on the first unresolved name. -/
def resolveConfigs (reg : List (String × InnerMigration T E)) :
    List SingleMigrationConfig → List (String × Migration T E) →
    Except String (List (String × Migration T E))
  | [], acc => .ok acc
  | c :: rest, acc =>
    match mlookup reg c.name with
    | some v => resolveConfigs reg rest (minsert c.name (Migration.new v c.metadata) acc)
    | none => .error (unsupportedMigrationMsg c.name)

/-- Mirrors the strict-mode computation of `MigrationSet::load`:
registry keys (in sorted order) that the resolved configuration lacks. -/
def missingNames (reg : List (String × InnerMigration T E))
    (inner : List (String × Migration T E)) : List String :=
  (reg.map Prod.fst).filter (fun name => !(mcontains inner name))

/-- Mirrors the catch-up loop of `MigrationSet::load`: every enabled
migration whose activation height is already reached becomes active,
without any initialize call. -/
def catchUp (height : Nat) (inner : List (String × Migration T E)) :
    List (String × Migration T E) :=
  inner.map (fun p =>
    if p.2.is_enabled = true ∧ p.2.metadata.block_height ≤ height then
      (p.1, { p.2 with active := true })
    else p)

/-- Mirrors `struct MigrationSet<'a, T, E>`. -/
structure MigrationSet (T E : Type) where
  inner : List (String × Migration T E)

/-- Mirrors `MigrationSet::load`. -/
def MigrationSet.load (registry : List (InnerMigration T E)) (config : MigrationConfig)
    (height : Nat) : Except String (MigrationSet T E) :=
  let is_strict := config.is_strict
  let reg := buildRegistry registry
  match resolveConfigs reg config.migrations [] with
  | .error e => .error e
  | .ok inner =>
    match (if is_strict = true then missingMessage (missingNames reg inner) else .ok ()) with
    | .error e => .error e
    | .ok _ => .ok ⟨catchUp height inner⟩

/-- Mirrors the loop of `MigrationSet::update_at_height`: walk the values
in key order, call `maybe_initialize_update_at_height` on the regular
ones, and stop at the first error, leaving the remaining entries
untouched. -/
def updateRegulars (block_height : Nat) :
    T → List (String × Migration T E) → List (String × Migration T E) × Except E T
  | storage, [] => ([], .ok storage)
  | storage, (k, m) :: rest =>
    if m.is_regular = true then
      match Migration.maybe_initialize_update_at_height m storage block_height with
      | (m₂, .ok storage₂) =>
        ((k, m₂) :: (updateRegulars block_height storage₂ rest).1,
          (updateRegulars block_height storage₂ rest).2)
      | (m₂, .error e) => ((k, m₂) :: rest, .error e)
    else
      ((k, m) :: (updateRegulars block_height storage rest).1,
        (updateRegulars block_height storage rest).2)

/-- Mirrors `MigrationSet::update_at_height`. -/
def MigrationSet.update_at_height (s : MigrationSet T E) (storage : T) (block_height : Nat) :
    MigrationSet T E × Except E T :=
  (⟨(updateRegulars block_height storage s.inner).1⟩,
    (updateRegulars block_height storage s.inner).2)

/-- Mirrors the loop of `MigrationSet::hotfix`: among values of kind
Hotfix with the requested name, the first transform that returns a
value wins; otherwise the result is `Ok none`. -/
def hotfixSearch (name : String) (b : Bytes) (block_height : Nat) :
    List (String × Migration T E) → Except E (Option Bytes)
  | [] => .ok none
  | (_, m) :: rest =>
    if m.is_hotfix = true ∧ m.name = name then
      match m.hotfix b block_height with
      | some r => .ok (some r)
      | none => hotfixSearch name b block_height rest
    else
      hotfixSearch name b block_height rest

/-- Mirrors `MigrationSet::hotfix`. -/
def MigrationSet.hotfix (s : MigrationSet T E) (name : String) (b : Bytes)
    (block_height : Nat) : Except E (Option Bytes) :=
  hotfixSearch name b block_height s.inner

/-- Mirrors `MigrationSet::is_enabled`: false for unknown names. -/
def MigrationSet.is_enabled (s : MigrationSet T E) (name : String) : Bool :=
  ((mlookup s.inner name).map Migration.is_enabled).getD false

/-- Mirrors `MigrationSet::is_active`: false for unknown names. -/
def MigrationSet.is_active (s : MigrationSet T E) (name : String) : Bool :=
  ((mlookup s.inner name).map Migration.is_active).getD false

/-- Harness modelling the lifetime of one migration: the host calls
`maybe_initialize_update_at_height` once per committed height, stopping
at the first error. -/
def runHeights : Migration T E → T → List Nat → Migration T E × Except E T
  | m, s, [] => (m, .ok s)
  | m, s, h :: hs =>
    match Migration.maybe_initialize_update_at_height m s h with
    | (m₂, .ok s₂) => runHeights m₂ s₂ hs
    | (m₂, .error e) => (m₂, .error e)

/-- Ordering of map entries by key (the character data of the key, which
is the order used by `BTreeMap<String, _>`). -/
def keyLt {α : Type} (p q : String × α) : Prop := p.1.data < q.1.data

/-- Number of entries of the map carrying the given key. -/
def mcountKey {α : Type} (l : List (String × α)) (k : String) : Nat :=
  l.countP (fun p => decide (p.1 = k))

/-- The last configuration entry carrying the given name, if any; the
entry whose metadata survives the `BTreeMap` collection in
`MigrationSet::load` when names repeat. -/
def lastConfigFor : List SingleMigrationConfig → String → Option SingleMigrationConfig
  | [], _ => none
  | c :: rest, n =>
    match lastConfigFor rest n with
    | some c₂ => some c₂
    | none => if c.name = n then some c else none

/-! Concrete instances used by witnesses and counterexamples. The
storage is a pair of counters: the first counts initialize calls, the
second counts update calls. -/

/-- Counting initialize hook. -/
def cInit : FnPtr (Nat × Nat) String := fun s _ => .ok (s.1 + 1, s.2)

/-- Counting update hook. -/
def cUpd : FnPtr (Nat × Nat) String := fun s _ => .ok (s.1, s.2 + 1)

/-- A regular migration descriptor with counting hooks. -/
def exInner : InnerMigration (Nat × Nat) String :=
  InnerMigration.new_initialize_update cInit cUpd "account_count" "counts accounts"

/-- Enabled metadata with activation height 100. -/
def md100 : Metadata := { block_height := 100, disabled := false, issue := none, extra := [] }

/-- Enabled metadata with activation height 200. -/
def md200 : Metadata := { block_height := 200, disabled := false, issue := none, extra := [] }

/-- Disabled metadata with activation height 100. -/
def md100dis : Metadata := { block_height := 100, disabled := true, issue := none, extra := [] }

/-- Enabled metadata with activation height 50. -/
def md50 : Metadata := { block_height := 50, disabled := false, issue := none, extra := [] }

/-- The counting migration bound to activation height 100. -/
def exMigration : Migration (Nat × Nat) String := Migration.new exInner md100

/-- A configuration activating `account_count` at height 100. -/
def exConfig : MigrationConfig := { strict := none, migrations := [⟨"account_count", md100⟩] }

/-- A strict configuration naming only an unknown migration. -/
def exConfigBogus : MigrationConfig :=
  { strict := some true, migrations := [⟨"bogus", md100⟩] }

/-- A strict configuration with no entries. -/
def exConfigEmptyStrict : MigrationConfig := { strict := some true, migrations := [] }

/-- A second regular migration descriptor, named `bbb`. -/
def bInner : InnerMigration (Nat × Nat) String :=
  InnerMigration.new_initialize_update cInit cUpd "bbb" "second migration"

/-- A strict configuration naming `account_count` twice, with different
metadata. -/
def exConfigDupStrict : MigrationConfig :=
  { strict := some true, migrations := [⟨"account_count", md100⟩, ⟨"account_count", md200⟩] }

/-- Initialize hook that always fails. -/
def fInit : FnPtr (Nat × Nat) String := fun _ _ => .error "boom"

/-- A regular migration descriptor whose initialize fails. -/
def fInner : InnerMigration (Nat × Nat) String :=
  InnerMigration.new_initialize_update fInit cUpd "aaa" "fails on initialize"

/-- The failing migration bound to activation height 100. -/
def fMigration : Migration (Nat × Nat) String := Migration.new fInner md100

/-- Hotfix transform appending the byte 7. -/
def hfFn : FnByte := fun b => some (b ++ [7])

/-- A hotfix migration descriptor. -/
def hfInner : InnerMigration (Nat × Nat) String :=
  InnerMigration.new_hotfix hfFn "hf" "raw byte patch"

/-- The hotfix migration bound to activation height 50. -/
def hfMigration : Migration (Nat × Nat) String := Migration.new hfInner md50

/-- A migration set holding only the hotfix migration. -/
def hfSet : MigrationSet (Nat × Nat) String := ⟨[("hf", hfMigration)]⟩

/-- The specification-level set of missing names for the strict check:
registry names (in registry-map order) with no configuration entry. -/
def missingOf (registry : List (InnerMigration T E)) (config : MigrationConfig) :
    List String :=
  ((buildRegistry registry).map Prod.fst).filter
    (fun n => decide (∀ c ∈ config.migrations, c.name ≠ n))

/-- The migration set obtained by loading `exConfig` against `[exInner]`
at height 150: already active. -/
def exLoaded : MigrationSet (Nat × Nat) String :=
  ⟨[("account_count", { migration := exInner, metadata := md100, enabled := true, active := true })]⟩

/-! Map lemmas: `minsert` keeps the association list key-sorted, and
lookup and key counting behave like `BTreeMap`. -/

theorem string_eq_of_data_eq {s₁ s₂ : String} (h : s₁.data = s₂.data) : s₁ = s₂ := by
  cases s₁; cases s₂; simp_all

theorem mem_minsert {α : Type} (k : String) (v : α) :
    ∀ (l : List (String × α)) (p : String × α), p ∈ minsert k v l → p = (k, v) ∨ p ∈ l := by
  intro l
  induction l with
  | nil =>
    intro p hp
    simp only [minsert, List.mem_singleton] at hp
    exact Or.inl hp
  | cons q rest ih =>
    intro p hp
    rcases q with ⟨k₂, v₂⟩
    simp only [minsert] at hp
    split_ifs at hp with h1 h2
    · rcases List.mem_cons.mp hp with h | h
      · exact Or.inl h
      · exact Or.inr h
    · rcases List.mem_cons.mp hp with h | h
      · exact Or.inl h
      · exact Or.inr (List.mem_cons_of_mem _ h)
    · rcases List.mem_cons.mp hp with h | h
      · exact Or.inr (h ▸ List.mem_cons_self _ _)
      · rcases ih p h with h₃ | h₃
        · exact Or.inl h₃
        · exact Or.inr (List.mem_cons_of_mem _ h₃)

theorem pairwise_minsert {α : Type} (k : String) (v : α) :
    ∀ (l : List (String × α)), l.Pairwise keyLt → (minsert k v l).Pairwise keyLt := by
  intro l
  induction l with
  | nil =>
    intro _
    simp [minsert]
  | cons q rest ih =>
    rcases q with ⟨k₂, v₂⟩
    intro hp
    rcases List.pairwise_cons.mp hp with ⟨hhead, htail⟩
    simp only [minsert]
    split_ifs with h1 h2
    · refine List.Pairwise.cons ?_ hp
      intro q hq
      rcases List.mem_cons.mp hq with h | h
      · subst h; exact h1
      · exact lt_trans h1 (hhead q h)
    · refine List.Pairwise.cons ?_ htail
      intro q hq
      have := hhead q hq
      unfold keyLt at this ⊢
      rw [h2]
      exact this
    · refine List.Pairwise.cons ?_ (ih htail)
      intro q hq
      rcases mem_minsert k v rest q hq with h | h
      · subst h
        unfold keyLt
        rcases lt_trichotomy k.data k₂.data with h₃ | h₃ | h₃
        · exact absurd h₃ h1
        · exact absurd (string_eq_of_data_eq h₃) h2
        · exact h₃
      · exact hhead q h

theorem mlookup_minsert_self {α : Type} (k : String) (v : α) :
    ∀ (l : List (String × α)), mlookup (minsert k v l) k = some v := by
  intro l
  induction l with
  | nil => simp [minsert, mlookup]
  | cons q rest ih =>
    rcases q with ⟨k₂, v₂⟩
    simp only [minsert]
    split_ifs with h1 h2
    · simp [mlookup]
    · simp [mlookup]
    · simp only [mlookup]
      rw [if_neg h2]
      exact ih

theorem mlookup_minsert_ne {α : Type} (k : String) (v : α) (k₃ : String) (hne : k₃ ≠ k) :
    ∀ (l : List (String × α)), mlookup (minsert k v l) k₃ = mlookup l k₃ := by
  intro l
  induction l with
  | nil => simp [minsert, mlookup, hne]
  | cons q rest ih =>
    rcases q with ⟨k₂, v₂⟩
    simp only [minsert]
    split_ifs with h1 h2
    · simp [mlookup, hne]
    · subst h2
      simp [mlookup, hne]
    · simp only [mlookup]
      split_ifs with h3
      · rfl
      · exact ih

theorem mlookup_isSome_of_mem_keys {α : Type} :
    ∀ (l : List (String × α)) (n : String), n ∈ l.map Prod.fst →
      (mlookup l n).isSome = true := by
  intro l
  induction l with
  | nil => intro n h; simp at h
  | cons p rest ih =>
    intro n h
    rcases p with ⟨k₂, v₂⟩
    simp only [List.map_cons, List.mem_cons] at h
    simp only [mlookup]
    by_cases hn : n = k₂
    · simp [hn]
    · rw [if_neg hn]
      rcases h with h | h
      · exact absurd h hn
      · exact ih n h

theorem mcountKey_eq_zero {α : Type} (n : String) (l : List (String × α))
    (h : ∀ p ∈ l, p.1 ≠ n) : mcountKey l n = 0 := by
  unfold mcountKey
  refine List.countP_eq_zero.mpr ?_
  intro p hp
  simp [h p hp]

theorem mcountKey_eq_one_of_pairwise {α : Type} (n : String) :
    ∀ (l : List (String × α)), l.Pairwise keyLt → (mlookup l n).isSome →
      mcountKey l n = 1 := by
  intro l
  induction l with
  | nil => intro _ h; simp [mlookup] at h
  | cons q rest ih =>
    rcases q with ⟨k₂, v₂⟩
    intro hp hs
    rcases List.pairwise_cons.mp hp with ⟨hhead, htail⟩
    simp only [mlookup] at hs
    by_cases h1 : n = k₂
    · have hzero : mcountKey rest n = 0 := by
        refine mcountKey_eq_zero n rest ?_
        intro p hpmem heq
        have hlt := hhead p hpmem
        unfold keyLt at hlt
        rw [heq, h1] at hlt
        exact absurd hlt (lt_irrefl _)
      unfold mcountKey at hzero ⊢
      rw [List.countP_cons, hzero]
      simp [h1]
    · rw [if_neg h1] at hs
      have := ih htail hs
      unfold mcountKey at this ⊢
      simp [List.countP_cons, this, Ne.symm h1]

/-! Lemmas about the per-migration transition. -/

theorem step_active (m : Migration T E) (s : T) (h : Nat) :
    (Migration.maybe_initialize_update_at_height m s h).1.active =
      (m.active || (m.enabled && decide (h = m.metadata.block_height))) := by
  unfold Migration.maybe_initialize_update_at_height Migration.is_enabled
  split_ifs with h1 h2 h3 <;> simp_all

theorem step_of_disabled (m : Migration T E) (s : T) (h : Nat) (hm : m.enabled = false) :
    Migration.maybe_initialize_update_at_height m s h = (m, .ok s) := by
  unfold Migration.maybe_initialize_update_at_height Migration.is_enabled
  rw [if_neg (by simp [hm])]

theorem step_metadata (m : Migration T E) (s : T) (h : Nat) :
    (Migration.maybe_initialize_update_at_height m s h).1.metadata = m.metadata ∧
      (Migration.maybe_initialize_update_at_height m s h).1.enabled = m.enabled ∧
      (Migration.maybe_initialize_update_at_height m s h).1.migration = m.migration := by
  unfold Migration.maybe_initialize_update_at_height
  split_ifs <;> simp

/-! Lemmas about the registry map built by `MigrationSet::load`. -/

theorem mlookup_foldl_registry (n : String) :
    ∀ (reg : List (InnerMigration T E)) (acc : List (String × InnerMigration T E)),
      mlookup (reg.foldl (fun acc m => minsert m.name m acc) acc) n = none ↔
        (∀ im ∈ reg, im.name ≠ n) ∧ mlookup acc n = none := by
  intro reg
  induction reg with
  | nil => intro acc; simp
  | cons im rest ih =>
    intro acc
    simp only [List.foldl_cons]
    rw [ih]
    constructor
    · rintro ⟨hrest, hacc⟩
      by_cases hn : im.name = n
      · rw [hn] at hacc
        rw [mlookup_minsert_self] at hacc
        exact absurd hacc (by simp)
      · rw [mlookup_minsert_ne _ _ _ (Ne.symm hn)] at hacc
        constructor
        · intro im₂ him₂
          rcases List.mem_cons.mp him₂ with h | h
          · rw [h]; exact hn
          · exact hrest im₂ h
        · exact hacc
    · rintro ⟨hall, hacc⟩
      have hn : im.name ≠ n := hall im (List.mem_cons_self _ _)
      refine ⟨fun im₂ h => hall im₂ (List.mem_cons_of_mem _ h), ?_⟩
      rw [mlookup_minsert_ne _ _ _ (Ne.symm hn)]
      exact hacc

theorem buildRegistry_none_iff (reg : List (InnerMigration T E)) (n : String) :
    mlookup (buildRegistry reg) n = none ↔ ∀ im ∈ reg, im.name ≠ n := by
  unfold buildRegistry
  rw [mlookup_foldl_registry]
  simp [mlookup]

theorem buildRegistry_isSome_iff (reg : List (InnerMigration T E)) (n : String) :
    (mlookup (buildRegistry reg) n).isSome = true ↔ ∃ im ∈ reg, im.name = n := by
  rw [Option.isSome_iff_ne_none]
  constructor
  · intro h
    by_contra hno
    push_neg at hno
    exact h ((buildRegistry_none_iff reg n).mpr hno)
  · rintro ⟨im, him, hname⟩ hnone
    exact (buildRegistry_none_iff reg n).mp hnone im him hname

/-! Lemmas about the configuration-resolution step of `MigrationSet::load`. -/

theorem resolveConfigs_shape (reg : List (String × InnerMigration T E)) :
    ∀ (cs : List SingleMigrationConfig) (acc inner : List (String × Migration T E)),
      resolveConfigs reg cs acc = .ok inner →
      (∀ p ∈ acc, p.2.active = false ∧ p.2.enabled = !p.2.metadata.disabled) →
      ∀ p ∈ inner, p.2.active = false ∧ p.2.enabled = !p.2.metadata.disabled := by
  intro cs
  induction cs with
  | nil =>
    intro acc inner hres hacc
    simp only [resolveConfigs] at hres
    injection hres with h
    subst h
    exact hacc
  | cons c rest ih =>
    intro acc inner hres hacc
    simp only [resolveConfigs] at hres
    cases hlk : mlookup reg c.name with
    | none => rw [hlk] at hres; simp at hres
    | some v =>
      rw [hlk] at hres
      refine ih _ inner hres ?_
      intro p hp
      rcases mem_minsert _ _ _ p hp with h | h
      · subst h; simp [Migration.new]
      · exact hacc p h

theorem resolveConfigs_pairwise (reg : List (String × InnerMigration T E)) :
    ∀ (cs : List SingleMigrationConfig) (acc inner : List (String × Migration T E)),
      resolveConfigs reg cs acc = .ok inner → acc.Pairwise keyLt →
      inner.Pairwise keyLt := by
  intro cs
  induction cs with
  | nil =>
    intro acc inner hres hacc
    simp only [resolveConfigs] at hres
    injection hres with h
    subst h
    exact hacc
  | cons c rest ih =>
    intro acc inner hres hacc
    simp only [resolveConfigs] at hres
    cases hlk : mlookup reg c.name with
    | none => rw [hlk] at hres; simp at hres
    | some v =>
      rw [hlk] at hres
      exact ih _ inner hres (pairwise_minsert _ _ _ hacc)

theorem lastConfigFor_name :
    ∀ (cs : List SingleMigrationConfig) (n : String) (c : SingleMigrationConfig),
      lastConfigFor cs n = some c → c.name = n := by
  intro cs
  induction cs with
  | nil => intro n c h; simp [lastConfigFor] at h
  | cons c₀ rest ih =>
    intro n c h
    simp only [lastConfigFor] at h
    cases hrest : lastConfigFor rest n with
    | some c₂ => rw [hrest] at h; injection h with h; subst h; exact ih n _ hrest
    | none =>
      rw [hrest] at h
      split_ifs at h with hname
      injection h with h
      subst h
      exact hname

theorem lastConfigFor_none_iff :
    ∀ (cs : List SingleMigrationConfig) (n : String),
      lastConfigFor cs n = none ↔ ∀ c ∈ cs, c.name ≠ n := by
  intro cs
  induction cs with
  | nil => intro n; simp [lastConfigFor]
  | cons c₀ rest ih =>
    intro n
    simp only [lastConfigFor]
    cases hrest : lastConfigFor rest n with
    | some c₂ =>
      constructor
      · intro h; simp at h
      · intro h
        have hnone : lastConfigFor rest n = none :=
          (ih n).mpr (fun c hc => h c (List.mem_cons_of_mem _ hc))
        rw [hnone] at hrest
        simp at hrest
    | none =>
      constructor
      · intro h
        split_ifs at h with hname
        intro c hc
        rcases List.mem_cons.mp hc with hcc | hcc
        · subst hcc; exact hname
        · exact (ih n).mp hrest c hcc
      · intro h
        rw [if_neg (h c₀ (List.mem_cons_self _ _))]

theorem resolveConfigs_lookup (reg : List (String × InnerMigration T E)) :
    ∀ (cs : List SingleMigrationConfig) (acc inner : List (String × Migration T E)),
      resolveConfigs reg cs acc = .ok inner → ∀ n,
      mlookup inner n =
        (match lastConfigFor cs n with
          | some c => (mlookup reg n).map (fun v => Migration.new v c.metadata)
          | none => mlookup acc n) := by
  intro cs
  induction cs with
  | nil =>
    intro acc inner hres n
    simp only [resolveConfigs] at hres
    injection hres with h
    subst h
    simp [lastConfigFor]
  | cons c rest ih =>
    intro acc inner hres n
    simp only [resolveConfigs] at hres
    cases hlk : mlookup reg c.name with
    | none => rw [hlk] at hres; simp at hres
    | some v =>
      rw [hlk] at hres
      have hih := ih _ inner hres n
      simp only [lastConfigFor]
      cases hrest : lastConfigFor rest n with
      | some c₂ =>
        rw [hrest] at hih
        exact hih
      | none =>
        rw [hrest] at hih
        by_cases hname : c.name = n
        · subst hname
          rw [mlookup_minsert_self] at hih
          simp only [if_pos rfl]
          rw [hih, hlk]
          rfl
        · rw [mlookup_minsert_ne _ _ _ (Ne.symm hname)] at hih
          rw [if_neg hname]
          exact hih

theorem resolveConfigs_ok (reg : List (String × InnerMigration T E)) :
    ∀ (cs : List SingleMigrationConfig) (acc : List (String × Migration T E)),
      (∀ c ∈ cs, (mlookup reg c.name).isSome = true) →
      ∃ inner, resolveConfigs reg cs acc = .ok inner := by
  intro cs
  induction cs with
  | nil => intro acc _; exact ⟨acc, rfl⟩
  | cons c rest ih =>
    intro acc hall
    have hc := hall c (List.mem_cons_self _ _)
    cases hlk : mlookup reg c.name with
    | none => rw [hlk] at hc; simp at hc
    | some v =>
      obtain ⟨inner, hinner⟩ :=
        ih (minsert c.name (Migration.new v c.metadata) acc)
          (fun c₂ h => hall c₂ (List.mem_cons_of_mem _ h))
      exact ⟨inner, by simp only [resolveConfigs]; rw [hlk]; exact hinner⟩

theorem resolveConfigs_first_error (reg : List (String × InnerMigration T E)) :
    ∀ (cs : List SingleMigrationConfig) (acc : List (String × Migration T E)),
      (∃ c ∈ cs, mlookup reg c.name = none) →
      ∃ n, (∃ c ∈ cs, c.name = n) ∧ mlookup reg n = none ∧
        resolveConfigs (T := T) (E := E) reg cs acc = .error (unsupportedMigrationMsg n) := by
  intro cs
  induction cs with
  | nil => rintro acc ⟨c, hc, _⟩; simp at hc
  | cons c rest ih =>
    rintro acc hex
    cases hlk : mlookup reg c.name with
    | none =>
      refine ⟨c.name, ⟨c, List.mem_cons_self _ _, rfl⟩, hlk, ?_⟩
      simp only [resolveConfigs]
      rw [hlk]
    | some v =>
      have hex₂ : ∃ c₂ ∈ rest, mlookup reg c₂.name = none := by
        rcases hex with ⟨c₂, hc₂, hnone⟩
        rcases List.mem_cons.mp hc₂ with h | h
        · subst h; rw [hlk] at hnone; simp at hnone
        · exact ⟨c₂, h, hnone⟩
      obtain ⟨n, ⟨c₂, hc₂, hname⟩, hnone, herr⟩ :=
        ih (minsert c.name (Migration.new v c.metadata) acc) hex₂
      refine ⟨n, ⟨c₂, List.mem_cons_of_mem _ hc₂, hname⟩, hnone, ?_⟩
      simp only [resolveConfigs]
      rw [hlk]
      exact herr

/-! Lemmas about the catch-up activation step of `MigrationSet::load`. -/

theorem mlookup_catchUp (h : Nat) :
    ∀ (l : List (String × Migration T E)) (n : String),
      mlookup (catchUp h l) n = (mlookup l n).map (fun v =>
        if v.is_enabled = true ∧ v.metadata.block_height ≤ h then
          { v with active := true } else v) := by
  intro l
  induction l with
  | nil => intro n; simp [catchUp, mlookup]
  | cons q rest ih =>
    intro n
    rcases q with ⟨k₂, v₂⟩
    simp only [catchUp, List.map_cons] at ih ⊢
    by_cases hcond : v₂.is_enabled = true ∧ v₂.metadata.block_height ≤ h
    · rw [if_pos hcond]
      simp only [mlookup]
      by_cases hn : n = k₂
      · simp [hn, hcond]
      · simp only [if_neg hn]
        exact ih n
    · rw [if_neg hcond]
      simp only [mlookup]
      by_cases hn : n = k₂
      · simp [hn, hcond]
      · simp only [if_neg hn]
        exact ih n

theorem mcountKey_catchUp (h : Nat) (l : List (String × Migration T E)) (n : String) :
    mcountKey (catchUp h l) n = mcountKey l n := by
  induction l with
  | nil => rfl
  | cons q rest ih =>
    rcases q with ⟨k₂, v₂⟩
    simp only [catchUp, List.map_cons, mcountKey, List.countP_cons] at ih ⊢
    by_cases hcond : v₂.is_enabled = true ∧ v₂.metadata.block_height ≤ h
    · rw [if_pos hcond]
      simp only []
      rw [ih]
    · rw [if_neg hcond]
      rw [ih]

/-! Lemmas about `MigrationSet::load` as a whole. -/

theorem load_ok_inner (registry : List (InnerMigration T E)) (config : MigrationConfig)
    (h0 : Nat) (ms : MigrationSet T E)
    (hload : MigrationSet.load registry config h0 = .ok ms) :
    ∃ inner, resolveConfigs (buildRegistry registry) config.migrations [] = .ok inner ∧
      ms.inner = catchUp h0 inner := by
  simp only [MigrationSet.load] at hload
  split at hload
  · simp at hload
  · rename_i inner heq
    split at hload
    · simp at hload
    · injection hload with h
      subst h
      exact ⟨inner, heq, rfl⟩

theorem load_active_char (registry : List (InnerMigration T E)) (config : MigrationConfig)
    (h0 : Nat) (ms : MigrationSet T E)
    (hload : MigrationSet.load registry config h0 = .ok ms) :
    ∀ p ∈ ms.inner,
      p.2.active = (p.2.enabled && decide (p.2.metadata.block_height ≤ h0)) := by
  obtain ⟨inner, hres, hinner⟩ := load_ok_inner registry config h0 ms hload
  have hshape := resolveConfigs_shape _ _ _ _ hres (by simp)
  intro p hp
  rw [hinner] at hp
  obtain ⟨q, hq, hfq⟩ := List.mem_map.mp hp
  rcases hshape q hq with ⟨hact, hen⟩
  by_cases hcond : q.2.is_enabled = true ∧ q.2.metadata.block_height ≤ h0
  · rw [if_pos hcond] at hfq
    subst hfq
    rcases hcond with ⟨hen₂, hle⟩
    unfold Migration.is_enabled at hen₂
    simp [hen₂, hle]
  · rw [if_neg hcond] at hfq
    subst hfq
    cases henb : q.2.enabled with
    | false => simp [hact, henb]
    | true =>
      have hgt : ¬(q.2.metadata.block_height ≤ h0) := by
        intro hle
        exact hcond ⟨by unfold Migration.is_enabled; exact henb, hle⟩
      simp [hact, henb, hgt]

/-! Lemmas about the per-height update loop. -/

theorem updateRegulars_entries (h : Nat) :
    ∀ (inner : List (String × Migration T E)) (s : T),
      List.Forall₂ (fun p q => p.1 = q.1 ∧ (p.2.active = true → q.2.active = true) ∧
          (p.2.is_regular = false → q = p))
        inner (updateRegulars h s inner).1 := by
  intro inner
  induction inner with
  | nil => intro s; simp [updateRegulars]
  | cons p rest ih =>
    intro s
    rcases p with ⟨k, m⟩
    simp only [updateRegulars]
    by_cases hreg : m.is_regular = true
    · rw [if_pos hreg]
      split
      · rename_i m₂ s₂ hstep
        refine List.Forall₂.cons ⟨rfl, ?_, ?_⟩ (ih s₂)
        · intro hact
          have hform := step_active m s h
          rw [hstep] at hform
          simp only [] at hform
          rw [hform, hact]
          simp
        · intro hne
          exact absurd hreg (by simp [hne])
      · rename_i m₂ e hstep
        refine List.Forall₂.cons ⟨rfl, ?_, ?_⟩ ?_
        · intro hact
          have hform := step_active m s h
          rw [hstep] at hform
          simp only [] at hform
          rw [hform, hact]
          simp
        · intro hne
          exact absurd hreg (by simp [hne])
        · exact List.forall₂_same.mpr (fun x _ => ⟨rfl, fun hh => hh, fun _ => rfl⟩)
    · rw [if_neg hreg]
      exact List.Forall₂.cons ⟨rfl, fun hh => hh, fun _ => rfl⟩ (ih s)

theorem updateRegulars_fail_fast (h : Nat) (k : String) (m : Migration T E)
    (post : List (String × Migration T E)) (e : E)
    (hreg : m.is_regular = true) :
    ∀ (pre : List (String × Migration T E)) (s s₁ : T)
      (pre₂ : List (String × Migration T E)),
      updateRegulars h s pre = (pre₂, .ok s₁) →
      (Migration.maybe_initialize_update_at_height m s₁ h).2 = .error e →
      updateRegulars h s (pre ++ (k, m) :: post) =
        (pre₂ ++ (k, (Migration.maybe_initialize_update_at_height m s₁ h).1) :: post,
          .error e) := by
  intro pre
  induction pre with
  | nil =>
    intro s s₁ pre₂ hpre herr
    simp only [updateRegulars] at hpre
    rw [Prod.mk.injEq] at hpre
    obtain ⟨h1, h2⟩ := hpre
    subst h1
    injection h2 with h2
    subst h2
    simp only [List.nil_append, updateRegulars]
    rw [if_pos hreg]
    cases hstep : Migration.maybe_initialize_update_at_height m s h with
    | mk m₂ r =>
      rw [hstep] at herr
      simp only [] at herr
      subst herr
      rfl
  | cons p₀ pre₀ ih =>
    intro s s₁ pre₂ hpre herr
    rcases p₀ with ⟨k₀, m₀⟩
    simp only [updateRegulars] at hpre
    simp only [List.cons_append, updateRegulars]
    by_cases hreg₀ : m₀.is_regular = true
    · rw [if_pos hreg₀] at hpre ⊢
      split at hpre
      · rename_i m₀₂ s₂ hstep₀
        rw [Prod.mk.injEq] at hpre
        obtain ⟨h1, h2⟩ := hpre
        subst h1
        have hx : updateRegulars h s₂ pre₀ = ((updateRegulars h s₂ pre₀).1, Except.ok s₁) := by
          rw [← h2]
        have hih := ih s₂ s₁ (updateRegulars h s₂ pre₀).1 hx herr
        simp only [List.append_eq] at hih ⊢
        rw [hih]
        simp
      · rename_i m₀₂ e₀ hstep₀
        rw [Prod.mk.injEq] at hpre
        obtain ⟨_, h2⟩ := hpre
        simp at h2
    · rw [if_neg hreg₀] at hpre ⊢
      rw [Prod.mk.injEq] at hpre
      obtain ⟨h1, h2⟩ := hpre
      subst h1
      have hx : updateRegulars h s pre₀ = ((updateRegulars h s pre₀).1, Except.ok s₁) := by
        rw [← h2]
      have hih := ih s s₁ (updateRegulars h s pre₀).1 hx herr
      simp only [List.append_eq] at hih ⊢
      rw [hih]
      simp

/-! Lemmas about the hotfix search loop. -/

theorem hotfixSearch_none (name : String) (b : Bytes) (h : Nat) :
    ∀ (l : List (String × Migration T E)),
      (∀ p ∈ l, p.2.is_hotfix = true → p.2.name = name → p.2.enabled = true →
        p.2.metadata.block_height = h → p.2.migration.hotfix b = none) →
      hotfixSearch name b h l = .ok none := by
  intro l
  induction l with
  | nil => intro _; rfl
  | cons p rest ih =>
    intro hall
    rcases p with ⟨k, m⟩
    simp only [hotfixSearch]
    split_ifs with hcond
    · rcases hcond with ⟨hhf, hname⟩
      have hm : m.hotfix b h = none := by
        unfold Migration.hotfix
        split_ifs with hcond₂
        · rcases hcond₂ with ⟨hen, hbh⟩
          exact hall (k, m) (List.mem_cons_self _ _) hhf hname
            (by unfold Migration.is_enabled at hen; exact hen) hbh
        · rfl
      rw [hm]
      exact ih (fun p hp => hall p (List.mem_cons_of_mem _ hp))
    · exact ih (fun p hp => hall p (List.mem_cons_of_mem _ hp))

theorem hotfixSearch_some (name : String) (b : Bytes) (h : Nat) :
    ∀ (l : List (String × Migration T E)) (r : Bytes),
      hotfixSearch name b h l = .ok (some r) →
      ∃ p ∈ l, p.2.is_hotfix = true ∧ p.2.name = name ∧ p.2.enabled = true ∧
        p.2.metadata.block_height = h ∧ p.2.migration.hotfix b = some r := by
  intro l
  induction l with
  | nil => intro r hr; simp [hotfixSearch] at hr
  | cons p rest ih =>
    intro r hr
    rcases p with ⟨k, m⟩
    simp only [hotfixSearch] at hr
    split_ifs at hr with hcond
    · rcases hcond with ⟨hhf, hname⟩
      cases hm : m.hotfix b h with
      | some r₂ =>
        rw [hm] at hr
        simp only [] at hr
        injection hr with hr
        injection hr with hr
        subst hr
        unfold Migration.hotfix at hm
        split_ifs at hm with hcond₂
        rcases hcond₂ with ⟨hen, hbh⟩
        exact ⟨(k, m), List.mem_cons_self _ _, hhf, hname,
          (by unfold Migration.is_enabled at hen; exact hen), hbh, hm⟩
      | none =>
        rw [hm] at hr
        simp only [] at hr
        obtain ⟨p, hp, hrest⟩ := ih r hr
        exact ⟨p, List.mem_cons_of_mem _ hp, hrest⟩
    · obtain ⟨p, hp, hrest⟩ := ih r hr
      exact ⟨p, List.mem_cons_of_mem _ hp, hrest⟩

theorem hotfixSearch_active_irrelevant (name : String) (b : Bytes) (h : Nat) (a : Bool) :
    ∀ (l : List (String × Migration T E)),
      hotfixSearch name b h (l.map (fun p => (p.1, { p.2 with active := a }))) =
        hotfixSearch name b h l := by
  intro l
  induction l with
  | nil => rfl
  | cons p rest ih =>
    rcases p with ⟨k, m⟩
    simp only [List.map_cons, hotfixSearch]
    have hhf : ({ m with active := a } : Migration T E).is_hotfix = m.is_hotfix := by
      unfold Migration.is_hotfix
      rfl
    have hname : ({ m with active := a } : Migration T E).name = m.name := rfl
    have hfix : ({ m with active := a } : Migration T E).hotfix b h = m.hotfix b h := by
      unfold Migration.hotfix Migration.is_enabled
      rfl
    rw [hhf, hname, hfix]
    split_ifs with hcond
    · cases m.hotfix b h with
      | some r => rfl
      | none => exact ih
    · exact ih

/-! Branch characterizations of `maybe_initialize_update_at_height`. -/

theorem step_low (m : Migration T E) (s : T) (h : Nat) (hen : m.enabled = true)
    (hlt : h < m.metadata.block_height) :
    Migration.maybe_initialize_update_at_height m s h = (m, .ok s) := by
  unfold Migration.maybe_initialize_update_at_height Migration.is_enabled
  rw [if_pos hen, if_neg (fun hc => absurd hc.1 (Nat.ne_of_lt hlt)),
    if_neg (Nat.lt_asymm hlt)]

theorem step_init (m : Migration T E) (regm : RegularMigration T E) (s : T)
    (htype : m.migration.type = MigrationType.Regular regm)
    (hen : m.enabled = true) (hact : m.active = false) :
    Migration.maybe_initialize_update_at_height m s m.metadata.block_height =
      ({ m with active := true }, regm.initialize_fn s m.metadata.extra) := by
  unfold Migration.maybe_initialize_update_at_height Migration.is_enabled
    InnerMigration.initialize
  rw [if_pos hen, if_pos ⟨rfl, hact⟩, htype]

theorem step_upd (m : Migration T E) (regm : RegularMigration T E) (s : T) (h : Nat)
    (htype : m.migration.type = MigrationType.Regular regm)
    (hen : m.enabled = true) (hlt : m.metadata.block_height < h) :
    Migration.maybe_initialize_update_at_height m s h =
      (m, regm.update_fn s m.metadata.extra) := by
  unfold Migration.maybe_initialize_update_at_height Migration.is_enabled
    InnerMigration.update
  rw [if_pos hen, if_neg (fun hc => absurd hc.1 (Nat.ne_of_gt hlt)), if_pos hlt, htype]

theorem step_hit_active (m : Migration T E) (s : T) (hen : m.enabled = true)
    (hact : m.active = true) :
    Migration.maybe_initialize_update_at_height m s m.metadata.block_height = (m, .ok s) := by
  unfold Migration.maybe_initialize_update_at_height Migration.is_enabled
  rw [if_pos hen, if_neg (fun hc => by rw [hact] at hc; exact absurd hc.2 (by simp)),
    if_neg (Nat.lt_irrefl _)]

/-! Claim theorems. -/

/-- C6: a migration built by `Migration::new` from metadata with
`disabled = true` (and not re-enabled) has `enabled = false`, and for any
migration with `enabled = false`, `maybe_initialize_update_at_height`
invokes neither hook at any height: it returns Ok with the storage
untouched and the migration — in particular its `active` flag, which is
neither read nor written on this path — unchanged, whatever its value. -/
theorem C6_disabled_migrations_skip_hooks (T E : Type) (inner : InnerMigration T E)
    (md : Metadata) (m : Migration T E) (s : T) (h : Nat) :
    (md.disabled = true →
      Migration.maybe_initialize_update_at_height (Migration.new inner md) s h =
        (Migration.new inner md, .ok s)) ∧
    (m.enabled = false →
      Migration.maybe_initialize_update_at_height m s h = (m, .ok s)) := by
  constructor
  · intro hdis
    exact step_of_disabled _ _ _ (by simp [Migration.new, hdis])
  · intro hen
    exact step_of_disabled _ _ _ hen

theorem C6_witness :
    md100dis.disabled = true ∧
    Migration.maybe_initialize_update_at_height (Migration.new exInner md100dis)
      (0, 0) 100 = (Migration.new exInner md100dis, .ok (0, 0)) ∧
    (Migration.new exInner md100dis).enabled = false ∧
    Migration.maybe_initialize_update_at_height (Migration.new exInner md100dis)
      (0, 0) 250 = (Migration.new exInner md100dis, .ok (0, 0)) :=
  ⟨rfl,
    (C6_disabled_migrations_skip_hooks (Nat × Nat) String exInner md100dis
      (Migration.new exInner md100dis) (0, 0) 100).1 rfl,
    rfl,
    (C6_disabled_migrations_skip_hooks (Nat × Nat) String exInner md100dis
      (Migration.new exInner md100dis) (0, 0) 250).2 rfl⟩

/-- C9: in `maybe_initialize_update_at_height`, `active` is set to true
before the initialize hook runs, so when initialize fails at the
activation height the migration is nevertheless left marked active, the
error propagates unchanged, and re-invoking at the same (activation)
height afterwards invokes neither hook — initialize is never
re-attempted after a failure. -/
theorem C9_active_set_before_initialize (T E : Type) (regm : RegularMigration T E)
    (m : Migration T E) (s : T) (h : Nat) (e : E)
    (htype : m.migration.type = MigrationType.Regular regm)
    (hen : m.enabled = true) (hact : m.active = false)
    (hh : h = m.metadata.block_height)
    (herr : regm.initialize_fn s m.metadata.extra = .error e) :
    Migration.maybe_initialize_update_at_height m s h =
      ({ m with active := true }, .error e) ∧
    ∀ s₂ : T, Migration.maybe_initialize_update_at_height ({ m with active := true }) s₂ h =
      ({ m with active := true }, .ok s₂) := by
  subst hh
  constructor
  · rw [step_init m regm s htype hen hact, herr]
  · intro s₂
    exact step_hit_active ({ m with active := true }) s₂ hen rfl

theorem C9_witness :
    Migration.maybe_initialize_update_at_height fMigration (0, 0) 100 =
      ({ fMigration with active := true }, .error "boom") ∧
    Migration.maybe_initialize_update_at_height ({ fMigration with active := true })
      (0, 0) 100 = ({ fMigration with active := true }, .ok (0, 0)) := by
  have h := C9_active_set_before_initialize (Nat × Nat) String ⟨fInit, cUpd⟩ fMigration
    (0, 0) 100 "boom" rfl rfl rfl rfl rfl
  exact ⟨h.1, h.2 (0, 0)⟩

/-- C2: for an enabled Regular migration with activation height `a`, the
per-height call is a no-op below `a`; at `a` while not yet active it runs
the initialize hook and marks the migration active; strictly above `a` it
runs the update hook (on every such call, and never initialize, which can
only fire while `active` is still false); and re-invoking at `a` once
active invokes neither hook. Run over the lifetime 99, 100, 101, 150, 100
with counting hooks, the initialize counter ends at exactly 1 and the
update counter at 2. -/
theorem C2_regular_transition (T E : Type) (regm : RegularMigration T E)
    (m : Migration T E) (s : T) (h : Nat)
    (htype : m.migration.type = MigrationType.Regular regm)
    (hen : m.enabled = true) :
    (h < m.metadata.block_height →
      Migration.maybe_initialize_update_at_height m s h = (m, .ok s)) ∧
    (m.active = false →
      Migration.maybe_initialize_update_at_height m s m.metadata.block_height =
        ({ m with active := true }, regm.initialize_fn s m.metadata.extra)) ∧
    (m.metadata.block_height < h →
      Migration.maybe_initialize_update_at_height m s h =
        (m, regm.update_fn s m.metadata.extra)) ∧
    (m.active = true →
      Migration.maybe_initialize_update_at_height m s m.metadata.block_height =
        (m, .ok s)) ∧
    runHeights exMigration (0, 0) [99, 100, 101, 150, 100] =
      ({ exMigration with active := true }, .ok (1, 2)) :=
  ⟨fun hlt => step_low m s h hen hlt,
    fun hact => step_init m regm s htype hen hact,
    fun hlt => step_upd m regm s h htype hen hlt,
    fun hact => step_hit_active m s hen hact,
    rfl⟩

theorem C2_witness :
    Migration.maybe_initialize_update_at_height exMigration (0, 0) 99 =
      (exMigration, .ok (0, 0)) ∧
    Migration.maybe_initialize_update_at_height exMigration (0, 0) 100 =
      ({ exMigration with active := true }, cInit (0, 0) md100.extra) ∧
    Migration.maybe_initialize_update_at_height exMigration (0, 0) 101 =
      (exMigration, cUpd (0, 0) md100.extra) ∧
    Migration.maybe_initialize_update_at_height ({ exMigration with active := true })
      (0, 0) 100 = ({ exMigration with active := true }, .ok (0, 0)) := by
  refine ⟨?_, ?_, ?_, ?_⟩
  · exact (C2_regular_transition (Nat × Nat) String ⟨cInit, cUpd⟩ exMigration
      (0, 0) 99 rfl rfl).1 (by decide)
  · exact (C2_regular_transition (Nat × Nat) String ⟨cInit, cUpd⟩ exMigration
      (0, 0) 100 rfl rfl).2.1 rfl
  · exact (C2_regular_transition (Nat × Nat) String ⟨cInit, cUpd⟩ exMigration
      (0, 0) 101 rfl rfl).2.2.1 (by decide)
  · exact (C2_regular_transition (Nat × Nat) String ⟨cInit, cUpd⟩
      ({ exMigration with active := true }) (0, 0) 100 rfl rfl).2.2.2.1 rfl

/-- C1 as stated fails on the code: `exMigration` is enabled, not active,
with activation height 100, and the first height processed while enabled
is 101 ≥ 100, yet the per-height call leaves `active` false — the
transition to active only happens on an exact height hit (or load
catch-up), not at the first height greater than or equal to the
activation height. -/
theorem C1_counterexample :
    exMigration.enabled = true ∧ exMigration.active = false ∧
    exMigration.metadata.block_height ≤ 101 ∧
    (Migration.maybe_initialize_update_at_height exMigration (0, 0) 101).1.active = false :=
  ⟨rfl, rfl, by decide, by decide⟩

/-- C1 amended: `active` never reverts to false — the per-height loop is
monotone in it — and it becomes true in exactly two ways: a per-height
call at exactly the activation height while enabled (first conjunct: the
flag after a call is the old flag or-ed with the exact-hit condition),
or loading at a starting height that has reached the activation height
of an enabled migration (third conjunct); in particular a per-height
call strictly past the activation height never sets it. -/
theorem C1_amended_activation (T E : Type) :
    (∀ (m : Migration T E) (s : T) (h : Nat),
      (Migration.maybe_initialize_update_at_height m s h).1.active =
        (m.active || (m.enabled && decide (h = m.metadata.block_height)))) ∧
    (∀ (inner : List (String × Migration T E)) (s : T) (h : Nat),
      List.Forall₂ (fun p q => p.1 = q.1 ∧ (p.2.active = true → q.2.active = true))
        inner (updateRegulars h s inner).1) ∧
    (∀ (registry : List (InnerMigration T E)) (config : MigrationConfig) (h0 : Nat)
      (ms : MigrationSet T E), MigrationSet.load registry config h0 = .ok ms →
      ∀ p ∈ ms.inner,
        p.2.active = (p.2.enabled && decide (p.2.metadata.block_height ≤ h0))) := by
  refine ⟨step_active, ?_, load_active_char⟩
  intro inner s h
  exact List.Forall₂.imp (fun a b hab => ⟨hab.1, hab.2.1⟩) (updateRegulars_entries h inner s)

theorem C1_amended_witness :
    (Migration.maybe_initialize_update_at_height exMigration (0, 0) 101).1.active =
      (exMigration.active ||
        (exMigration.enabled && decide (101 = exMigration.metadata.block_height))) ∧
    ({ migration := exInner, metadata := md100, enabled := true, active := true } :
        Migration (Nat × Nat) String).active =
      (({ migration := exInner, metadata := md100, enabled := true, active := true } :
        Migration (Nat × Nat) String).enabled && decide (md100.block_height ≤ 150)) := by
  refine ⟨(C1_amended_activation (Nat × Nat) String).1 exMigration (0, 0) 101, ?_⟩
  exact (C1_amended_activation (Nat × Nat) String).2.2 [exInner] exConfig 150 exLoaded rfl
    _ (List.mem_cons_self _ _)

/-- C3: loading at a starting height `h0` at or past an enabled
migration's activation height marks it active; `load` receives no
storage handle, so no hook — in particular no initialize — can run
during the catch-up; disabled migrations are never marked active by it;
and a later per-height call strictly past the activation height still
runs the update hook. Concretely, loading `exConfig` (activation height
100) at height 150 yields an already-active migration, and the update
call at height 151 runs the update hook once and the initialize hook
never (counters (0,0) to (0,1)). -/
theorem C3_load_catch_up (T E : Type) (registry : List (InnerMigration T E))
    (config : MigrationConfig) (h0 : Nat) (ms : MigrationSet T E)
    (hload : MigrationSet.load registry config h0 = .ok ms) :
    (∀ p ∈ ms.inner,
      (p.2.enabled = true → p.2.metadata.block_height ≤ h0 → p.2.active = true) ∧
      (p.2.enabled = false → p.2.active = false) ∧
      (∀ (regm : RegularMigration T E) (s : T) (h : Nat),
        p.2.migration.type = MigrationType.Regular regm → p.2.enabled = true →
        p.2.metadata.block_height < h →
        Migration.maybe_initialize_update_at_height p.2 s h =
          (p.2, regm.update_fn s p.2.metadata.extra))) ∧
    (MigrationSet.load [exInner] exConfig 150 = .ok exLoaded ∧
      exLoaded.is_active "account_count" = true ∧
      exLoaded.update_at_height (0, 0) 151 = (exLoaded, .ok (0, 1))) := by
  constructor
  · intro p hp
    have hchar := load_active_char registry config h0 ms hload p hp
    refine ⟨?_, ?_, ?_⟩
    · intro hen hle
      rw [hchar]
      simp [hen, hle]
    · intro hen
      rw [hchar, hen]
      simp
    · intro regm s h htype hen hlt
      exact step_upd p.2 regm s h htype hen hlt
  · exact ⟨rfl, rfl, rfl⟩

theorem C3_witness :
    ({ migration := exInner, metadata := md100, enabled := true, active := true } :
        Migration (Nat × Nat) String).active = true ∧
    exLoaded.update_at_height (0, 0) 151 = (exLoaded, .ok (0, 1)) := by
  have h := C3_load_catch_up (Nat × Nat) String [exInner] exConfig 150 exLoaded rfl
  exact ⟨(h.1 _ (List.mem_cons_self _ _)).1 rfl (by decide), h.2.2.2⟩

/-- C4: `update_at_height` iterates only migrations of kind Regular —
entries of any other kind pass through the loop untouched (first
conjunct) — and it is fail-fast: when a regular migration's hook
returns an error after the prefix `pre` was processed successfully,
iteration stops, the entries after the failing one are returned exactly
as they were (never invoked), and the error is returned to the caller
unchanged (second conjunct). -/
theorem C4_update_fail_fast (T E : Type) :
    (∀ (inner : List (String × Migration T E)) (s : T) (h : Nat),
      List.Forall₂ (fun p q => p.1 = q.1 ∧ (p.2.is_regular = false → q = p))
        inner (updateRegulars h s inner).1) ∧
    (∀ (pre post : List (String × Migration T E)) (k : String) (m : Migration T E)
      (s s₁ : T) (pre₂ : List (String × Migration T E)) (h : Nat) (e : E),
      updateRegulars h s pre = (pre₂, .ok s₁) →
      m.is_regular = true →
      (Migration.maybe_initialize_update_at_height m s₁ h).2 = .error e →
      MigrationSet.update_at_height (⟨pre ++ (k, m) :: post⟩ : MigrationSet T E) s h =
        (⟨pre₂ ++ (k, (Migration.maybe_initialize_update_at_height m s₁ h).1) :: post⟩,
          .error e)) := by
  constructor
  · intro inner s h
    exact List.Forall₂.imp (fun a b hab => ⟨hab.1, hab.2.2⟩) (updateRegulars_entries h inner s)
  · intro pre post k m s s₁ pre₂ h e hpre hreg herr
    have hfast := updateRegulars_fail_fast h k m post e hreg pre s s₁ pre₂ hpre herr
    unfold MigrationSet.update_at_height
    rw [hfast]

theorem C4_witness :
    MigrationSet.update_at_height
        (⟨[("aaa", fMigration), ("bbb", exMigration)]⟩ : MigrationSet (Nat × Nat) String)
        (0, 0) 100 =
      (⟨[("aaa", { fMigration with active := true }), ("bbb", exMigration)]⟩,
        .error "boom") := by
  have h := (C4_update_fail_fast (Nat × Nat) String).2 [] [("bbb", exMigration)] "aaa"
    fMigration (0, 0) (0, 0) [] 100 "boom" rfl rfl rfl
  exact h

/-- C5: the hotfix entry point applies a transform only through a
migration of kind Hotfix that is enabled, carries the requested name,
and whose activation height equals the queried height exactly: whenever
every such candidate's transform yields nothing — in particular at any
other height, such as activation height plus or minus one — the result
is Ok none (first conjunct); any Ok-some result is produced by such a
candidate's transform (second conjunct); and the `active` flags play no
role at all (third conjunct). -/
theorem C5_hotfix_gating (T E : Type) (ms : MigrationSet T E) (name : String)
    (b : Bytes) (h : Nat) :
    ((∀ p ∈ ms.inner, p.2.is_hotfix = true → p.2.name = name → p.2.enabled = true →
        p.2.metadata.block_height = h → p.2.migration.hotfix b = none) →
      ms.hotfix name b h = .ok none) ∧
    (∀ r, ms.hotfix name b h = .ok (some r) →
      ∃ p ∈ ms.inner, p.2.is_hotfix = true ∧ p.2.name = name ∧ p.2.enabled = true ∧
        p.2.metadata.block_height = h ∧ p.2.migration.hotfix b = some r) ∧
    (∀ a : Bool,
      MigrationSet.hotfix
        (⟨ms.inner.map (fun p => (p.1, { p.2 with active := a }))⟩ : MigrationSet T E)
        name b h = ms.hotfix name b h) :=
  ⟨hotfixSearch_none name b h ms.inner,
    fun r => hotfixSearch_some name b h ms.inner r,
    fun a => hotfixSearch_active_irrelevant name b h a ms.inner⟩

theorem C5_witness :
    hfSet.hotfix "hf" [1, 2] 49 = .ok none ∧
    hfSet.hotfix "hf" [1, 2] 51 = .ok none ∧
    hfSet.hotfix "hf" [1, 2] 50 = .ok (some [1, 2, 7]) ∧
    (∃ p ∈ hfSet.inner, p.2.is_hotfix = true ∧ p.2.name = "hf" ∧ p.2.enabled = true ∧
      p.2.metadata.block_height = 50 ∧ p.2.migration.hotfix [1, 2] = some [1, 2, 7]) := by
  refine ⟨?_, ?_, by rfl, ?_⟩
  · refine (C5_hotfix_gating (Nat × Nat) String hfSet "hf" [1, 2] 49).1 ?_
    intro p hp h1 h2 h3 h4
    rcases List.mem_singleton.mp hp with h
    subst h
    exact absurd h4 (by decide)
  · refine (C5_hotfix_gating (Nat × Nat) String hfSet "hf" [1, 2] 51).1 ?_
    intro p hp h1 h2 h3 h4
    rcases List.mem_singleton.mp hp with h
    subst h
    exact absurd h4 (by decide)
  · exact (C5_hotfix_gating (Nat × Nat) String hfSet "hf" [1, 2] 50).2.1 [1, 2, 7] rfl

/-- C7: whenever some configuration entry names a migration absent from
the registry, the whole load fails, and the error is the
`Unsupported migration` message naming an absent entry of the
configuration (the first such entry in configuration order). -/
theorem C7_unsupported_migration (T E : Type) (registry : List (InnerMigration T E))
    (config : MigrationConfig) (h : Nat)
    (hex : ∃ c ∈ config.migrations, ∀ im ∈ registry, im.name ≠ c.name) :
    ∃ n, (∃ c ∈ config.migrations, c.name = n) ∧ (∀ im ∈ registry, im.name ≠ n) ∧
      MigrationSet.load (T := T) (E := E) registry config h =
        .error (unsupportedMigrationMsg n) := by
  have hex₂ : ∃ c ∈ config.migrations, mlookup (buildRegistry registry) c.name = none := by
    rcases hex with ⟨c, hc, hall⟩
    exact ⟨c, hc, (buildRegistry_none_iff registry c.name).mpr hall⟩
  obtain ⟨n, hn, hnone, herr⟩ := resolveConfigs_first_error (buildRegistry registry)
    config.migrations [] hex₂
  refine ⟨n, hn, (buildRegistry_none_iff registry n).mp hnone, ?_⟩
  simp only [MigrationSet.load]
  rw [herr]

theorem C7_witness :
    ∃ n, (∃ c ∈ exConfigBogus.migrations, c.name = n) ∧
      (∀ im ∈ [exInner], im.name ≠ n) ∧
      MigrationSet.load [exInner] exConfigBogus 0 = .error (unsupportedMigrationMsg n) :=
  C7_unsupported_migration (Nat × Nat) String [exInner] exConfigBogus 0
    ⟨⟨"bogus", md100⟩, List.mem_cons_self _ _, by decide⟩

/-- C8 as stated fails on the code: `exConfigBogus` is strict and the
registry name `account_count` has no configuration entry, yet the load
error is the `Unsupported migration` message for the unresolved entry
`bogus` — name resolution fails the load before the strict check — so
the message does not list the missing registry name in either the
singular or the plural form. -/
theorem C8_counterexample :
    exConfigBogus.is_strict = true ∧
    (∀ c ∈ exConfigBogus.migrations, c.name ≠ "account_count") ∧
    (∃ im ∈ [exInner], im.name = "account_count") ∧
    MigrationSet.load [exInner] exConfigBogus 0 =
      .error (unsupportedMigrationMsg "bogus") ∧
    unsupportedMigrationMsg "bogus" ≠ missingSingularMsg "account_count" ∧
    unsupportedMigrationMsg "bogus" ≠ missingPluralMsg ["account_count"] :=
  ⟨rfl, by decide, by decide, rfl, by decide, by decide⟩

/-- C8 amended: for a strict configuration all of whose entries resolve
against the registry, when at least one registry name has no
configuration entry the load fails — with the singular message naming
the one missing migration when exactly one is missing, and the plural
message listing all missing names (in registry-map order) otherwise —
and when no registry name is missing the strict check does not fail the
load. -/
theorem C8_amended_strict_missing (T E : Type) (registry : List (InnerMigration T E))
    (config : MigrationConfig) (h0 : Nat)
    (hres : ∀ c ∈ config.migrations, ∃ im ∈ registry, im.name = c.name)
    (hstrict : config.is_strict = true) :
    ((missingOf (T := T) (E := E) registry config = [] →
      ∃ ms, MigrationSet.load (T := T) (E := E) registry config h0 = .ok ms) ∧
    (∀ n, missingOf (T := T) (E := E) registry config = [n] →
      MigrationSet.load (T := T) (E := E) registry config h0 =
        .error (missingSingularMsg n)) ∧
    (∀ n₁ n₂ rest, missingOf (T := T) (E := E) registry config = n₁ :: n₂ :: rest →
      MigrationSet.load (T := T) (E := E) registry config h0 =
        .error (missingPluralMsg (n₁ :: n₂ :: rest)))) := by
  have hall : ∀ c ∈ config.migrations,
      (mlookup (buildRegistry (T := T) (E := E) registry) c.name).isSome = true :=
    fun c hc => (buildRegistry_isSome_iff registry c.name).mpr (hres c hc)
  obtain ⟨inner, hinner⟩ :=
    resolveConfigs_ok (buildRegistry registry) config.migrations [] hall
  have hlookup := resolveConfigs_lookup (buildRegistry registry) config.migrations [] inner hinner
  have hmiss : missingNames (buildRegistry registry) inner =
      missingOf (T := T) (E := E) registry config := by
    unfold missingNames missingOf
    refine List.filter_congr ?_
    intro n _
    by_cases hcfg : ∀ c ∈ config.migrations, c.name ≠ n
    · have hlast : lastConfigFor config.migrations n = none :=
        (lastConfigFor_none_iff _ _).mpr hcfg
      unfold mcontains
      rw [hlookup n, hlast]
      simp [mlookup]
      exact hcfg
    · have hlastS : lastConfigFor config.migrations n ≠ none := by
        intro hnone
        exact hcfg ((lastConfigFor_none_iff _ _).mp hnone)
      cases hlast : lastConfigFor config.migrations n with
      | none => exact absurd hlast hlastS
      | some c =>
        have hcin : ∃ c₂ ∈ config.migrations, c₂.name = n := by
          by_contra hno
          push_neg at hno
          exact hcfg hno
        obtain ⟨c₂, hc₂, hc₂n⟩ := hcin
        have hsome : (mlookup (buildRegistry (T := T) (E := E) registry) n).isSome = true := by
          rw [← hc₂n]
          exact hall c₂ hc₂
        obtain ⟨v, hv⟩ := Option.isSome_iff_exists.mp hsome
        unfold mcontains
        rw [hlookup n, hlast, hv]
        simp [hcfg]
  have hbranch : MigrationSet.load (T := T) (E := E) registry config h0 =
      (match missingMessage (missingOf (T := T) (E := E) registry config) with
        | Except.error e => Except.error e
        | Except.ok _ => Except.ok ⟨catchUp h0 inner⟩) := by
    simp only [MigrationSet.load]
    rw [hinner]
    show (match (if config.is_strict = true
        then missingMessage (missingNames (buildRegistry registry) inner)
        else Except.ok ()) with
      | Except.error e => Except.error e
      | Except.ok _ => Except.ok (MigrationSet.mk (catchUp h0 inner))) = _
    rw [if_pos hstrict, hmiss]
  refine ⟨?_, ?_, ?_⟩
  · intro hmof
    rw [hmof] at hbranch
    exact ⟨⟨catchUp h0 inner⟩, hbranch⟩
  · intro n hmof
    rw [hmof] at hbranch
    exact hbranch
  · intro n₁ n₂ rest hmof
    rw [hmof] at hbranch
    exact hbranch

theorem C8_witness :
    MigrationSet.load (T := Nat × Nat) (E := String) [exInner] exConfigEmptyStrict 0 =
      .error (missingSingularMsg "account_count") := by
  have h := C8_amended_strict_missing (Nat × Nat) String [exInner] exConfigEmptyStrict 0
    (by decide) rfl
  exact h.2.1 "account_count" (by decide)

/-- C10 as stated fails on the code: the strict configuration
`exConfigDupStrict` names `account_count` twice, every entry resolves
against the registry `[exInner, bInner]`, yet the load does not succeed —
the strict check rejects it because the registry name `bbb` has no
configuration entry, so a duplicate-name configuration can still fail
to load for the orthogonal strict-missing reason. -/
theorem C10_counterexample :
    2 ≤ (exConfigDupStrict.migrations.filter
      (fun c => decide (c.name = "account_count"))).length ∧
    (∀ c ∈ exConfigDupStrict.migrations, ∃ im ∈ [exInner, bInner], im.name = c.name) ∧
    MigrationSet.load [exInner, bInner] exConfigDupStrict 0 =
      .error (missingSingularMsg "bbb") :=
  ⟨by decide, by decide, rfl⟩

/-- C10 amended: a configuration naming the same migration two or more
times, with every entry resolving against the registry and — when the
configuration is strict — every registry name carrying a configuration
entry, loads successfully rather than rejecting the duplicate, and the
resulting set holds exactly one instance under that name, built from
the metadata of the last configuration entry carrying it — later
`BTreeMap` inserts overwrite earlier ones. -/
theorem C10_duplicate_names_last_wins (T E : Type) (registry : List (InnerMigration T E))
    (config : MigrationConfig) (h0 : Nat) (n : String) (clast : SingleMigrationConfig)
    (hres : ∀ c ∈ config.migrations, ∃ im ∈ registry, im.name = c.name)
    (hstrictok : config.is_strict = true →
      ∀ im ∈ registry, ∃ c ∈ config.migrations, c.name = im.name)
    (hdup : 2 ≤ (config.migrations.filter (fun c => decide (c.name = n))).length)
    (hlast : lastConfigFor config.migrations n = some clast) :
    ∃ ms m, MigrationSet.load (T := T) (E := E) registry config h0 = .ok ms ∧
      mlookup ms.inner n = some m ∧ m.metadata = clast.metadata ∧
      mcountKey ms.inner n = 1 := by
  have hall : ∀ c ∈ config.migrations,
      (mlookup (buildRegistry (T := T) (E := E) registry) c.name).isSome = true :=
    fun c hc => (buildRegistry_isSome_iff registry c.name).mpr (hres c hc)
  obtain ⟨inner, hinner⟩ :=
    resolveConfigs_ok (buildRegistry registry) config.migrations [] hall
  have hlookupAll := resolveConfigs_lookup (buildRegistry registry) config.migrations []
    inner hinner
  have hmissnil : config.is_strict = true →
      missingNames (buildRegistry registry) inner = [] := by
    intro hst
    unfold missingNames
    refine List.filter_eq_nil_iff.mpr ?_
    intro m hm
    have hsome₀ : (mlookup (buildRegistry (T := T) (E := E) registry) m).isSome = true :=
      mlookup_isSome_of_mem_keys _ m hm
    obtain ⟨im, him, himn⟩ := (buildRegistry_isSome_iff registry m).mp hsome₀
    obtain ⟨c, hc, hcn⟩ := hstrictok hst im him
    have hcn₂ : c.name = m := by rw [hcn, himn]
    have hlastne : lastConfigFor config.migrations m ≠ none := by
      intro hnone
      exact (lastConfigFor_none_iff _ _).mp hnone c hc hcn₂
    cases hlast₀ : lastConfigFor config.migrations m with
    | none => exact absurd hlast₀ hlastne
    | some c₀ =>
      obtain ⟨v₀, hv₀⟩ := Option.isSome_iff_exists.mp hsome₀
      have hmm := hlookupAll m
      rw [hlast₀, hv₀] at hmm
      simp [mcontains, hmm]
  have hload : MigrationSet.load (T := T) (E := E) registry config h0 =
      .ok ⟨catchUp h0 inner⟩ := by
    simp only [MigrationSet.load]
    rw [hinner]
    show (match (if config.is_strict = true
        then missingMessage (missingNames (buildRegistry registry) inner)
        else Except.ok ()) with
      | Except.error e => Except.error e
      | Except.ok _ => Except.ok (MigrationSet.mk (catchUp h0 inner))) = _
    cases hst : config.is_strict with
    | false => rw [if_neg (by simp)]
    | true =>
      rw [if_pos rfl, hmissnil hst]
      rfl
  have hcin : ∃ c₂ ∈ config.migrations, c₂.name = n := by
    have hpos : 0 < (config.migrations.filter (fun c => decide (c.name = n))).length :=
      lt_of_lt_of_le (by decide) hdup
    obtain ⟨c₂, hc₂⟩ := List.exists_mem_of_length_pos hpos
    have := List.mem_filter.mp hc₂
    exact ⟨c₂, this.1, by simpa using this.2⟩
  obtain ⟨c₂, hc₂, hc₂n⟩ := hcin
  have hsome : (mlookup (buildRegistry (T := T) (E := E) registry) n).isSome = true := by
    rw [← hc₂n]
    exact hall c₂ hc₂
  obtain ⟨v, hv⟩ := Option.isSome_iff_exists.mp hsome
  have hlookup := hlookupAll n
  rw [hlast, hv] at hlookup
  simp only [Option.map_some] at hlookup
  have hmsl : mlookup (catchUp h0 inner) n =
      some (if (Migration.new v clast.metadata).is_enabled = true ∧
          (Migration.new v clast.metadata).metadata.block_height ≤ h0 then
        { Migration.new v clast.metadata with active := true }
      else Migration.new v clast.metadata) := by
    rw [mlookup_catchUp, hlookup]
    rfl
  refine ⟨⟨catchUp h0 inner⟩, _, hload, hmsl, ?_, ?_⟩
  · split_ifs with hcond
    · rfl
    · rfl
  · have hpw : inner.Pairwise keyLt :=
      resolveConfigs_pairwise (buildRegistry registry) config.migrations [] inner hinner
        List.Pairwise.nil
    have hone : mcountKey inner n = 1 := by
      refine mcountKey_eq_one_of_pairwise n inner hpw ?_
      rw [hlookup]
      rfl
    rw [mcountKey_catchUp]
    exact hone

theorem C10_witness :
    ∃ ms m, MigrationSet.load [exInner] exConfigDupStrict 0 = .ok ms ∧
      mlookup ms.inner "account_count" = some m ∧ m.metadata = md200 ∧
      mcountKey ms.inner "account_count" = 1 :=
  C10_duplicate_names_last_wins (Nat × Nat) String [exInner] exConfigDupStrict 0
    "account_count" ⟨"account_count", md200⟩ (by decide) (fun _ => by decide)
    (by decide) (by decide)

end ManyMigration
